import Mathlib

/-!
Shallow embedding of the `lirios/ostree-upload` publish protocol
(server-side receiver handlers, the queue engine, the staging engine and
the client-side pusher) together with proofs of the specification claims.

Conventions of the embedding:

* File contents are byte lists (`List Nat`); the filesystem is a finite
  partial map from path strings to contents (`FS`).  Directories are not
  modelled (`os.MkdirAll` always succeeds in the code paths under study);
  I/O failures other than non-existence are not modelled.
* SHA-256 (`common.CalculateChecksum`, package `crypto/sha256`) is an
  external primitive; definitions are parameterised by a digest function
  `hash : List Nat → String` which the code only ever compares for
  string equality.
* Go maps are embedded as association lists; a lookup of a missing key
  yields the zero value `""`, as in Go.
* the Go `filepath.Join` on the clean, non-empty relative components used
  by this program is plain `"/"`-separated concatenation.
* A Go runtime panic (string slicing out of range) is a distinct
  handler outcome `HandlerResult.panic`, separate from an `http.Error`
  response.
-/

namespace OstreeUpload

/-- File contents: a byte sequence. -/
abbrev Bytes := List Nat

/-- The filesystem: a partial map from path to file contents. -/
def FS := String → Option Bytes

/-- The empty filesystem. -/
def fsEmpty : FS := fun _ => none

/-- Write (create or truncate) a file, as `os.Create` / `os.OpenFile`
with `O_CREATE|O_TRUNC` followed by `io.Copy`. -/
def fsWrite (fs : FS) (p : String) (b : Bytes) : FS :=
  fun q => if q = p then some b else fs q

/-- Remove a file, as `os.Remove`. -/
def fsRemove (fs : FS) (p : String) : FS :=
  fun q => if q = p then none else fs q

/-- Whether `os.Stat` reports the path as existing. -/
def fsExists (fs : FS) (p : String) : Bool :=
  (fs p).isSome

/-- The error value produced by `os.Stat` in this embedding: the only
failure the model represents is non-existence. -/
inductive FsError where
  | notExist
deriving DecidableEq

/-- The error returned by `os.Stat fs p`: `none` when the file exists
(`err == nil` in Go), `ErrNotExist` otherwise. -/
def statError (fs : FS) (p : String) : Option FsError :=
  if fsExists fs p then none else some .notExist

/-- the Go `os.IsExist` applied to the possible results of `os.Stat`:
it is `true` only for "file already exists" errors, which `os.Stat`
never returns — `os.IsExist(nil) = false` and
`os.IsExist(ErrNotExist) = false`. -/
def osIsExist : Option FsError → Bool
  | none => false
  | some .notExist => false

/-- `filepath.Join` restricted to the clean, non-empty relative
components this program passes to it: interleave `"/"`. -/
def filepathJoin : List String → String
  | [] => ""
  | [x] => x
  | x :: xs => x ++ "/" ++ filepathJoin xs

/-- `tempDirName` from `receiver`: name of the staging directory inside
the OSTree repository. -/
def tempDirName : String := "tmp/ostree-upload"

/-- `Repo.GetObjectPath` from `internal/ostree/ostree.go`:
`filepath.Join(r.path, "objects", objectName[:2], objectName[2:])`.
Go string slicing `objectName[:2]` panics when the name is shorter than
two bytes; the panic is modelled as `none`. -/
def GetObjectPath (repoPath objectName : String) : Option String :=
  if objectName.length < 2 then none
  else some (filepathJoin [repoPath, "objects", objectName.take 2, objectName.drop 2])

/-- `GetTempObjectPath` from the receiver:
`filepath.Join(r.Path(), tempDirName, objectName)` — note that the whole
object name is a single component, with no `first2/rest` split. -/
def GetTempObjectPath (repoPath objectName : String) : String :=
  filepathJoin [repoPath, tempDirName, objectName]

/-- `common.RevisionPair`. -/
structure RevisionPair where
  server : String
  client : String
deriving DecidableEq

/-- `receiver.QueueEntry`.  The `id`, `updateRefs` and `objects` fields
are from `queue.go`; the Go `map[string]common.RevisionPair` is embedded
as an association list.  The `finalizing` field is modelled from the
spec: the handlers read and set `entry.Finalizing`, whose declaration
is missing from the queue source under `src/` (the spec data model
gives `finalizing: bool`, initially false). -/
structure QueueEntry where
  id : String
  updateRefs : List (String × RevisionPair)
  objects : List String
  finalizing : Bool
deriving DecidableEq

/-- `common.QueueRequest`. -/
structure QueueRequest where
  refs : List (String × RevisionPair)
  objects : List String
deriving DecidableEq

/-- The outcome of one HTTP handler invocation: a 200 reply with a
value, an `http.Error` reply with a status code and message, or a Go
runtime panic. -/
inductive HandlerResult (α : Type) where
  | ok (a : α)
  | httpError (status : Nat) (msg : String)
  | panic (msg : String)
deriving DecidableEq

/-- Branch names of an entry `UpdateRefs` map. -/
def refKeys (refs : List (String × RevisionPair)) : List String :=
  refs.map (fun p => p.1)

/-- The conflict scan of `CreateEntryHandler` (`queue.Walk` over all
entries; for each branch of an entry `UpdateRefs`, look the branch up
in the request `Refs` map): the first branch found to be shared. -/
def findConflict (queue : List QueueEntry) (req : QueueRequest) : Option String :=
  queue.findSome? (fun e =>
    e.updateRefs.findSome? (fun p =>
      if req.refs.any (fun q => q.1 == p.1) then some p.1 else none))

/-- `receiver.CreateEntryHandler`: refuse with HTTP 500 when any branch
of the request is already being updated by an existing entry; otherwise
store a new entry (`Queue.AddEntry`, fresh id) with `finalizing` false
and reply with the id. -/
def CreateEntryHandler (queue : List QueueEntry) (newId : String) (req : QueueRequest) :
    List QueueEntry × HandlerResult String :=
  match findConflict queue req with
  | some b =>
      (queue, .httpError 500 ("branch \x22" ++ b ++ "\x22 is already being updated"))
  | none =>
      (queue ++ [{ id := newId, updateRefs := req.refs, objects := req.objects,
                   finalizing := false }], .ok newId)

/-- The loop of `receiver.ObjectsHandler`: for each object name compute
the staging path and (possibly panicking) live path, and keep the name
when neither file exists. -/
def missingLoop (repoPath : String) (fs : FS) : List String → HandlerResult (List String)
  | [] => .ok []
  | n :: rest =>
    let tempPath := GetTempObjectPath repoPath n
    match GetObjectPath repoPath n with
    | none => .panic "slice bounds out of range"
    | some objectPath =>
      match missingLoop repoPath fs rest with
      | .ok ms =>
          .ok (if !fsExists fs tempPath && !fsExists fs objectPath then n :: ms else ms)
      | .httpError s m => .httpError s m
      | .panic m => .panic m

/-- `receiver.ObjectsHandler` (`GET /queue/{id}`): reply with the names
of the entry objects that are present neither in staging nor in the
live store.  The handler reads the filesystem and mutates nothing. -/
def ObjectsHandler (fs : FS) (repoPath : String) (entry : QueueEntry) :
    HandlerResult (List String) :=
  missingLoop repoPath fs entry.objects

/-- One part of the multipart body of `PUT /queue/{id}`. -/
inductive Part where
  | file (objectName : String) (body : Bytes)
  | checksum (body : String)
  | other (fieldName : String)
deriving DecidableEq

/-- Go map read `checksums[objectName]` with zero value `""` for a
missing key. -/
def lookupD (m : List (String × String)) (k : String) : String :=
  match m.find? (fun p => p.1 == k) with
  | some p => p.2
  | none => ""

/-- Go map write `checksums[objectName] = v`. -/
def setKV (m : List (String × String)) (k v : String) : List (String × String) :=
  if m.any (fun p => p.1 == k) then
    m.map (fun p => if p.1 == k then (p.1, v) else p)
  else
    m ++ [(k, v)]

/-- `strings.Split` on `":"` over the character list (structural, so
that it evaluates in the kernel). -/
def splitColonChars : List Char → List (List Char)
  | [] => [[]]
  | c :: cs =>
    match splitColonChars cs with
    | [] => [[]]
    | h :: t => if c = ':' then [] :: h :: t else (c :: h) :: t

/-- `strings.Split(s, ":")`. -/
def splitColon (s : String) : List String :=
  (splitColonChars s.data).map (fun cs => String.mk cs)

/-- The part-reading loop of `receiver.UploadHandler`.  A `file` part is
staged at `GetTempObjectPath` — the `os.Stat`/`os.IsExist` guard of the
source is translated literally, and `os.Create` truncates any existing
file — then its digest is computed from the stored file and recorded.
A `checksum` part `"<name>:<digest>"` is compared against the recorded
digest (missing key reads as `""`); on mismatch the request fails with
422 and the staged file is left in place: the `os.Remove` call in the
source is commented out.  Any other field name fails with 422.
Reaching the end of the parts replies 200. -/
def uploadParts (hash : Bytes → String) (repoPath : String) :
    FS → List (String × String) → List Part → FS × HandlerResult Unit
  | fs, _, [] => (fs, .ok ())
  | fs, cks, .file objectName body :: rest =>
    let objectPath := GetTempObjectPath repoPath objectName
    if osIsExist (statError fs objectPath) then
      (fs, .httpError 422
        ("temporary file for object \x22" ++ objectName ++ "\x22 already exist"))
    else
      let fs1 := fsWrite fs objectPath body
      let checksum := hash ((fs1 objectPath).getD [])
      uploadParts hash repoPath fs1 (setKV cks objectName checksum) rest
  | fs, cks, .checksum body :: rest =>
    let args := splitColon body
    if args.length != 2 then
      (fs, .httpError 422 "bad checksum format")
    else
      let objectName := args.headD ""
      let checksum := (args.drop 1).headD ""
      if objectName == "" || checksum == "" then
        (fs, .httpError 422 "empty object name or checksum")
      else if lookupD cks objectName != checksum then
        (fs, .httpError 422 ("bad checksum for " ++ objectName))
      else
        uploadParts hash repoPath fs cks rest
  | fs, _, .other fieldName :: _ =>
    (fs, .httpError 422 ("unsupported form field " ++ fieldName))

/-- `receiver.UploadHandler` (`PUT /queue/{id}`): refuse when the entry
is finalizing, otherwise run the multipart loop.  The handler never
touches the queue, so the entry stays as it was. -/
def UploadHandler (hash : Bytes → String) (repoPath : String) (entry : QueueEntry)
    (fs : FS) (parts : List Part) : FS × HandlerResult Unit :=
  if entry.finalizing then
    (fs, .httpError 422 "cannot upload objects when the update process is almost done")
  else
    uploadParts hash repoPath fs [] parts

/-- Primitive filesystem calls, for recording what `moveFile` does.
`renameFile` is the `os.Rename` primitive; `moveFile` never issues it. -/
inductive FileOp where
  | openRead (p : String)
  | statFd
  | openWriteTrunc (p : String)
  | copyBytes (src dst : String)
  | closeFd
  | removeFile (p : String)
  | renameFile (src dst : String)
deriving DecidableEq

/-- `receiver.moveFile`: open the source (failing when it is absent),
stat it, open the destination with `O_WRONLY|O_CREATE|O_TRUNC`, copy the
bytes, close both files, and remove the source.  The returned list
records the primitive calls issued. -/
def moveFile (fs : FS) (source destination : String) :
    FS × List FileOp × Except String Unit :=
  match fs source with
  | none => (fs, [.openRead source], .error "open failed")
  | some b =>
    let fs1 := fsWrite fs destination b
    let fs2 := fsRemove fs1 source
    (fs2,
     [.openRead source, .statFd, .openWriteTrunc destination,
      .copyBytes source destination, .closeFd, .closeFd, .removeFile source],
     .ok ())

/-- Observable steps of `DoneHandler`, in execution order. -/
inductive Evt where
  | move (src dst : String)
  | setRef (branch rev : String)
  | removeEntry (id : String)
deriving DecidableEq

/-- Whether an event is an object promotion. -/
def Evt.isMove : Evt → Bool
  | .move _ _ => true
  | _ => false

/-- The promotion loop of `receiver.DoneHandler`: for each object name,
derive the live path (panicking on short names), create its directory
(always succeeds in the model), skip the object when the live file
already exists, and otherwise `moveFile` it out of staging; a move
failure aborts with HTTP 500. -/
def promoteLoop (repoPath : String) : FS → List String →
    FS × List Evt × Option (HandlerResult Unit)
  | fs, [] => (fs, [], none)
  | fs, n :: rest =>
    match GetObjectPath repoPath n with
    | none => (fs, [], some (.panic "slice bounds out of range"))
    | some objectPath =>
      if fsExists fs objectPath then
        promoteLoop repoPath fs rest
      else
        let tempPath := GetTempObjectPath repoPath n
        match moveFile fs tempPath objectPath with
        | (fs1, _, .error _) =>
            (fs1, [],
             some (.httpError 500
               ("unable to move \x22" ++ tempPath ++ "\x22 to \x22" ++ objectPath ++ "\x22")))
        | (fs1, _, .ok _) =>
            let out := promoteLoop repoPath fs1 rest
            (out.1, .move tempPath objectPath :: out.2.1, out.2.2)

/-- `ostree.Repo.SetRefImmediate` as seen through `UpdateRefs`: point
the branch at the revision in the server ref map (the underlying C
call is external and modelled as always succeeding). -/
def applySetRef (refs : List (String × String)) (branch rev : String) :
    List (String × String) :=
  if refs.any (fun p => p.1 == branch) then
    refs.map (fun p => if p.1 == branch then (p.1, rev) else p)
  else
    refs ++ [(branch, rev)]

/-- `receiver.UpdateRefs`: for every `(branch, revPair)` of the entry
map, set the branch to the client revision. -/
def UpdateRefs (refs : List (String × String))
    (updates : List (String × RevisionPair)) : List (String × String) :=
  updates.foldl (fun acc p => applySetRef acc p.1 p.2.client) refs

/-- `Queue.RemoveEntry`: delete the entry with the given id. -/
def removeEntryFn (queue : List QueueEntry) (id : String) : List QueueEntry :=
  queue.filter (fun e => e.id != id)

/-- Mark the entry as finalizing in the queue (the handler sets
`entry.Finalizing = true` through the shared pointer). -/
def setFinalizing (queue : List QueueEntry) (id : String) : List QueueEntry :=
  queue.map (fun e => if e.id == id then { e with finalizing := true } else e)

/-- The server state a handler can touch: the filesystem, the on-disk
ref map, and the queue. -/
structure ServerState where
  fs : FS
  refs : List (String × String)
  queue : List QueueEntry

/-- `receiver.DoneHandler` (`GET /done/{id}`): refuse a second finalize
with HTTP 500; otherwise mark the entry finalizing, promote every
object out of staging (any failure aborts with the refs untouched),
then update the refs and finally remove the entry.  The event list
records the order of the observable steps. -/
def DoneHandler (repoPath : String) (st : ServerState) (entry : QueueEntry) :
    ServerState × List Evt × HandlerResult Unit :=
  if entry.finalizing then
    (st, [], .httpError 500 "already finalizing")
  else
    let queue1 := setFinalizing st.queue entry.id
    match promoteLoop repoPath st.fs entry.objects with
    | (fs1, evts, some err) =>
        ({ st with fs := fs1, queue := queue1 }, evts, err)
    | (fs1, evts, none) =>
        let refs1 := UpdateRefs st.refs entry.updateRefs
        let setEvts := entry.updateRefs.map (fun p => Evt.setRef p.1 p.2.client)
        ({ fs := fs1, refs := refs1, queue := removeEntryFn queue1 entry.id },
         evts ++ setEvts ++ [.removeEntry entry.id], .ok ())

/-- A queue mutation, as issued by the handlers: `CreateEntryHandler`
admission (with its fresh id) or entry removal (`DELETE /queue/{id}` or
the end of a successful finalize). -/
inductive QueueOp where
  | create (newId : String) (req : QueueRequest)
  | remove (id : String)
deriving DecidableEq

/-- Apply one queue mutation. -/
def applyOp (queue : List QueueEntry) : QueueOp → List QueueEntry
  | .create newId req => (CreateEntryHandler queue newId req).1
  | .remove id => removeEntryFn queue id

/-- The queue reached from the empty queue by a sequence of mutations. -/
def runOps (ops : List QueueOp) : List QueueEntry :=
  ops.foldl applyOp []

/-- Pairwise disjointness of the branch sets of the queue entries. -/
def DisjointRefs (queue : List QueueEntry) : Prop :=
  queue.Pairwise (fun e1 e2 => ∀ b, b ∈ refKeys e1.updateRefs → b ∉ refKeys e2.updateRefs)

/-- Outcome of the commit walk of `Pusher.FindNeededCommits`.
`outOfFuel` is a model artifact: the Go `for` loop has no bound, so
every theorem supplies fuel exceeding the length of the parent chain it
hypothesises. -/
inductive WalkOut where
  | ok (commits : List String)
  | nonDescendant
  | outOfFuel
deriving DecidableEq

/-- The loop of `Pusher.FindNeededCommits`: starting from the local
revision, exit when the current commit equals the remote revision;
otherwise append it, then follow `GetParentRev` (`none` models the Go
empty parent, breaking the loop — after which the walk fails when a
non-empty remote revision was never reached). -/
def findNeededCommitsAux (parentOf : String → Option String) (remoteRev : String) :
    Nat → String → List String → WalkOut
  | 0, _, _ => .outOfFuel
  | fuel + 1, parent, commits =>
    if parent = remoteRev then .ok commits
    else
      let commits1 := commits ++ [parent]
      match parentOf parent with
      | none => if remoteRev ≠ "" then .nonDescendant else .ok commits1
      | some newParent => findNeededCommitsAux parentOf remoteRev fuel newParent commits1

/-- `Pusher.FindNeededCommits remoteRev localRev`. -/
def FindNeededCommits (parentOf : String → Option String) (fuel : Nat)
    (remoteRev localRev : String) : WalkOut :=
  findNeededCommitsAux parentOf remoteRev fuel localRev []

/-- `Pusher.CheckUpdate`: keep every local branch whose revision differs
from the remote one (a branch missing remotely reads as `""`). -/
def CheckUpdate (branches : List (String × String))
    (remoteRefs : List (String × String)) : List (String × RevisionPair) :=
  branches.filterMap (fun p =>
    let remoteRev := lookupD remoteRefs p.1
    if p.2 != remoteRev then some (p.1, RevisionPair.mk remoteRev p.2) else none)

/-- The commit-collection phase of `Pusher.FindObjectsToPush`: for each
branch to update, run `FindNeededCommits` and concatenate; the first
failure aborts. -/
def collectCommits (parentOf : String → Option String) (fuel : Nat) :
    List (String × RevisionPair) → Except WalkOut (List String)
  | [] => .ok []
  | (_, revs) :: rest =>
    match FindNeededCommits parentOf fuel revs.server revs.client with
    | .ok commits =>
      match collectCommits parentOf fuel rest with
      | .ok more => .ok (commits ++ more)
      | .error e => .error e
    | .nonDescendant => .error .nonDescendant
    | .outOfFuel => .error .outOfFuel

/-- `Pusher.FindObjectsForCommits`: traverse every commit into its
object closure, stat each object in the local store (a missing object
is fatal) and hash it, producing `name ↦ (rev, path, checksum)`. -/
def FindObjectsForCommits (traverse : String → List String) (localFs : FS)
    (hash : Bytes → String) (repoPath : String) :
    List String → Except String (List (String × String × String × String))
  | [] => .ok []
  | rev :: rest =>
    match (traverse rev).foldlM (fun acc objectName =>
        match GetObjectPath repoPath objectName with
        | none => Except.error "slice bounds out of range"
        | some path =>
          match localFs path with
          | none => Except.error "stat failed"
          | some b =>
            Except.ok (acc ++ [(objectName, rev, path, hash b)]))
        ([] : List (String × String × String × String)) with
    | .error e => .error e
    | .ok objs =>
      match FindObjectsForCommits traverse localFs hash repoPath rest with
      | .error e => .error e
      | .ok more => .ok (objs ++ more)

/-- `Pusher.FindObjectsToPush`: collect the needed commits of every
branch, then enumerate their objects. -/
def FindObjectsToPush (parentOf : String → Option String) (fuel : Nat)
    (traverse : String → List String) (localFs : FS) (hash : Bytes → String)
    (repoPath : String) (updateRefs : List (String × RevisionPair)) :
    Except String (List (String × String × String × String)) :=
  match collectCommits parentOf fuel updateRefs with
  | .error .nonDescendant => .error "remote commit not descendent of commit"
  | .error _ => .error "out of fuel"
  | .ok commits => FindObjectsForCommits traverse localFs hash repoPath commits

/-- One HTTP request issued by the pusher, in order. -/
inductive HttpCall where
  | info
  | createQueue
  | listObjects
  | upload
  | doneCall
deriving DecidableEq

/-- `push.StartClient`, reduced to the order of its HTTP requests: ask
`info`, compute the branches to update, enumerate the closure locally
(`FindObjectsToPush` issues no request), and only then open the queue
entry, request the missing-object list, upload, and finalize.  The
server answers (ref map, queue id, wanted list) are parameters; a
failure during closure enumeration returns before any further request
is issued. -/
def StartClient (parentOf : String → Option String) (fuel : Nat)
    (traverse : String → List String) (localFs : FS) (hash : Bytes → String)
    (repoPath : String) (branches : List (String × String))
    (remoteRefs : List (String × String)) :
    List HttpCall × Except String Unit :=
  let updateRefs := CheckUpdate branches remoteRefs
  if updateRefs.isEmpty then
    ([.info], .ok ())
  else
    match FindObjectsToPush parentOf fuel traverse localFs hash repoPath updateRefs with
    | .error e => ([.info], .error e)
    | .ok _ =>
        ([.info, .createQueue, .listObjects, .upload, .doneCall], .ok ())

/-- The walk from `l` through `parentOf` whose successive commits are
`chain`, ending by reaching `r` as a parent: `chain` lists the commits
strictly before `r`, none of which equals `r`. -/
def isWalkToB (parentOf : String → Option String) : String → List String → String → Bool
  | l, [], r => l == r
  | l, c :: cs, r =>
    c == l && !(c == r) &&
      (match parentOf c with
       | none => false
       | some np => isWalkToB parentOf np cs r)

/-- The walk from `l` through `parentOf` whose successive commits are
`chain`, ending at a parentless commit without ever meeting `r`. -/
def isDeadEndWalkB (parentOf : String → Option String) : String → List String → String → Bool
  | _, [], _ => false
  | l, c :: cs, r =>
    c == l && !(c == r) &&
      (match parentOf c with
       | none => cs.isEmpty
       | some np => !cs.isEmpty && isDeadEndWalkB parentOf np cs r)

/-- Deduplication keeping the first occurrence of each name. -/
def dedupFirstAux : List String → List String → List String
  | _, [] => []
  | seen, x :: xs =>
    if x ∈ seen then dedupFirstAux seen xs else x :: dedupFirstAux (x :: seen) xs

/-- Deduplication keeping the first occurrence of each name. -/
def dedupFirst (l : List String) : List String := dedupFirstAux [] l

/-- The missing-objects reply as the spec words it: the names whose
staging and live files are both absent, in input order, deduplicated.
(A name short enough to make the live path panic has no live file.) -/
def missingObjectsSpec (fs : FS) (repoPath : String) (objects : List String) :
    List String :=
  dedupFirst (objects.filter (fun n =>
    !fsExists fs (GetTempObjectPath repoPath n) &&
    !(match GetObjectPath repoPath n with
      | some p => fsExists fs p
      | none => false)))

/-- The staging path as the spec words it:
`<repo>/tmp/<staging-root>/<first2>/<rest>`, mirroring the live
layout. -/
def mirroredTempPathSpec (repoPath objectName : String) : String :=
  filepathJoin [repoPath, tempDirName, objectName.take 2, objectName.drop 2]

/-- A stand-in for SHA-256 in concrete scenarios: definitions are
parameterised by the digest function, and the code only compares
digests for equality. -/
def toyHash (b : Bytes) : String :=
  toString (b.foldl (fun a x => a * 31 + x + 1) 7)

/-- Concrete queue entry used by the scenario theorems: one branch
`stable` moving from `""` to `c1`, one object `abcd`. -/
def entryOne : QueueEntry :=
  { id := "q1", updateRefs := [("stable", ⟨"", "c1"⟩)], objects := ["abcd"],
    finalizing := false }

/-- Concrete queue entry whose object list repeats a name. -/
def entryDup : QueueEntry :=
  { id := "q2", updateRefs := [("dev", ⟨"", "c2"⟩)], objects := ["abcd", "abcd"],
    finalizing := false }

/-- Concrete queue entry holding a one-character object name, as
`CreateEntryHandler` admits it. -/
def entryShort : QueueEntry :=
  { id := "q1", updateRefs := [("stable", ⟨"", "c1"⟩)], objects := ["a"],
    finalizing := false }

/-- Concrete server state with the object of `entryOne` staged. -/
def stagedStateOne : ServerState :=
  { fs := fsWrite fsEmpty (GetTempObjectPath "repo" "abcd") [1, 2, 3],
    refs := [], queue := [entryOne] }

/-- Concrete three-commit history `c3 → c2 → c1`. -/
def parentChain3 : String → Option String :=
  fun c => if c = "c3" then some "c2" else if c = "c2" then some "c1" else none

/-- Concrete request targeting branch `stable`, as `entryOne` does. -/
def reqStable : QueueRequest :=
  { refs := [("stable", ⟨"c1", "c9"⟩)], objects := ["wxyz"] }

end OstreeUpload



namespace OstreeUpload

/-- After the shared `<repo>/` prefix, a staging path continues with
`tmp/ostree-upload/` while a live path continues with `objects/`, so
the two joins are never equal. -/
theorem temp_ne_live_join (repo n t2 d2 : String) :
    filepathJoin [repo, tempDirName, n] ≠ filepathJoin [repo, "objects", t2, d2] := by
  intro h
  have h1 := congrArg String.data h
  simp only [filepathJoin, String.data_append, List.append_assoc] at h1
  have h2 := List.append_cancel_left h1
  simp [tempDirName] at h2

/-- A successful `GetObjectPath` result is the sharded live path. -/
theorem getObjectPath_eq (repoPath m p : String)
    (h : GetObjectPath repoPath m = some p) :
    p = filepathJoin [repoPath, "objects", m.take 2, m.drop 2] := by
  unfold GetObjectPath at h
  split at h
  · exact absurd h (by simp)
  · exact (Option.some.inj h).symm

/-- The staging path of any object never coincides with the live path
of any object. -/
theorem temp_ne_livePath (repoPath n m p : String)
    (h : GetObjectPath repoPath m = some p) :
    GetTempObjectPath repoPath n ≠ p := by
  rw [getObjectPath_eq repoPath m p h]
  exact temp_ne_live_join repoPath n _ _

/-- The already-staged guard of the upload handler can never fire:
`os.IsExist` is false on every result `os.Stat` produces. -/
theorem osIsExist_statError_false (fs : FS) (p : String) :
    osIsExist (statError fs p) = false := by
  unfold statError
  by_cases h : fsExists fs p = true
  · simp [h, osIsExist]
  · simp [h, osIsExist]

/-- C7 (amended): the staging path is flat —
`<repo>/tmp/<staging-root>/<name>` with the whole object name as a
single component — while the live path is the sharded
`<repo>/objects/<first2>/<rest>`; for a slash-free name the staging
path differs from the mirrored `<first2>/<rest>` form the claim
describes, and a `file` part of an upload stages its bytes exactly at
the flat path. -/
theorem stagingPathIsFlat (repoPath n : String) (h2 : 2 ≤ n.length)
    (hs : ('/' : Char) ∉ n.data) :
    GetTempObjectPath repoPath n = repoPath ++ "/" ++ (tempDirName ++ "/" ++ n) ∧
    GetObjectPath repoPath n =
      some (repoPath ++ "/" ++ ("objects" ++ "/" ++ (n.take 2 ++ "/" ++ n.drop 2))) ∧
    GetTempObjectPath repoPath n ≠ mirroredTempPathSpec repoPath n ∧
    (∀ (hash : Bytes → String) (fs : FS) (cks : List (String × String)) (b : Bytes),
      (uploadParts hash repoPath fs cks [Part.file n b]).1
        (GetTempObjectPath repoPath n) = some b) := by
  have hlt : ¬ n.length < 2 := by omega
  refine ⟨rfl, by simp [GetObjectPath, hlt, filepathJoin], ?_, ?_⟩
  · intro h
    have h1 := congrArg String.data h
    simp only [GetTempObjectPath, mirroredTempPathSpec, filepathJoin,
      String.data_append, List.append_assoc] at h1
    have h2a := List.append_cancel_left h1
    have h2b := List.append_cancel_left h2a
    have h2c := List.append_cancel_left h2b
    have h2d := List.append_cancel_left h2c
    apply hs
    rw [h2d]
    have hm : ('/' : Char) ∈ ("/" : String).data := by decide
    exact List.mem_append.mpr (Or.inr (List.mem_append.mpr (Or.inl hm)))
  · intro hash fs cks b
    simp [uploadParts, osIsExist_statError_false, fsWrite]

/-- C7 witness: the flat-path statement evaluated at repository `repo`
and object name `abcd`. -/
theorem stagingPathIsFlat_witness :
    GetTempObjectPath "repo" "abcd" =
      "repo" ++ "/" ++ (tempDirName ++ "/" ++ "abcd") ∧
    GetObjectPath "repo" "abcd" =
      some ("repo" ++ "/" ++ ("objects" ++ "/" ++
        ("abcd".take 2 ++ "/" ++ "abcd".drop 2))) ∧
    GetTempObjectPath "repo" "abcd" ≠ mirroredTempPathSpec "repo" "abcd" ∧
    (∀ (hash : Bytes → String) (fs : FS) (cks : List (String × String)) (b : Bytes),
      (uploadParts hash "repo" fs cks [Part.file "abcd" b]).1
        (GetTempObjectPath "repo" "abcd") = some b) :=
  stagingPathIsFlat "repo" "abcd" (by decide) (by decide)

/-- C10: `Repo.GetObjectPath` slices the object name with no length
check and `CreateEntryHandler` validates no object-name shape, so an
entry carrying the one-character name `a` is admitted, and both
`GET /queue/{id}` and `GET /done/{id}` on that entry end in the Go
runtime panic (slice bounds out of range) instead of an HTTP error
reply built by the handler. -/
theorem shortObjectNamePanics :
    CreateEntryHandler [] "q1" ⟨[("stable", ⟨"", "c1"⟩)], ["a"]⟩ =
      ([entryShort], .ok "q1") ∧
    GetObjectPath "repo" "a" = none ∧
    ObjectsHandler fsEmpty "repo" entryShort = .panic "slice bounds out of range" ∧
    (DoneHandler "repo" ⟨fsEmpty, [], [entryShort]⟩ entryShort).2.2 =
      .panic "slice bounds out of range" := by
  refine ⟨?_, ?_, ?_, ?_⟩ <;> decide

/-- C7, counterexample: the staging path built by `GetTempObjectPath`
keeps the whole object name as one component, so for the object `abcd`
it differs from the mirrored `<first2>/<rest>` form the claim
describes. -/
theorem stagingPathFlat_cex :
    GetTempObjectPath "repo" "abcd" = "repo/tmp/ostree-upload/abcd" ∧
    mirroredTempPathSpec "repo" "abcd" = "repo/tmp/ostree-upload/ab/cd" ∧
    GetTempObjectPath "repo" "abcd" ≠ mirroredTempPathSpec "repo" "abcd" := by
  refine ⟨?_, ?_, ?_⟩ <;> decide

/-- C5, counterexample: `GET /queue/{id}` does not deduplicate — an
entry listing `abcd` twice, with the object present nowhere, is
answered with the name twice, not once as the claim requires. -/
theorem missingObjectsDuplicated_cex :
    ObjectsHandler fsEmpty "repo" entryDup = .ok ["abcd", "abcd"] ∧
    missingObjectsSpec fsEmpty "repo" entryDup.objects = ["abcd"] ∧
    ObjectsHandler fsEmpty "repo" entryDup ≠
      .ok (missingObjectsSpec fsEmpty "repo" entryDup.objects) := by
  refine ⟨?_, ?_, ?_⟩ <;> decide

/-- C2: evaluation of `UploadHandler` at the failing input.  Uploading
object `abcd` with bytes whose digest is not the declared `00` is
answered with 422 `bad checksum for abcd`, but the staged file is still
present afterwards (the `os.Remove` in the source is commented out),
contrary to the claim that it is absent. -/
theorem badChecksumKeepsStagedFile :
    toyHash [1, 2, 3] ≠ "00" ∧
    (UploadHandler toyHash "repo" entryOne fsEmpty
        [.file "abcd" [1, 2, 3], .checksum "abcd:00"]).2 =
      .httpError 422 "bad checksum for abcd" ∧
    (UploadHandler toyHash "repo" entryOne fsEmpty
        [.file "abcd" [1, 2, 3], .checksum "abcd:00"]).1
        (GetTempObjectPath "repo" "abcd") = some [1, 2, 3] := by
  refine ⟨?_, ?_, ?_⟩ <;> decide

/-- C6: evaluation of `UploadHandler` at the failing input.  With bytes
`[9]` already staged for `abcd`, a new `file` part for `abcd` is not
refused — `os.IsExist` applied to the result of `os.Stat` is false both
for an existing and for a missing file, so the guard never fires — and
`os.Create` truncates: the request ends 200 and the staged bytes are
replaced, contrary to the claimed AlreadyStaged failure. -/
theorem alreadyStagedOverwritten :
    osIsExist (statError (fsWrite fsEmpty (GetTempObjectPath "repo" "abcd") [9])
      (GetTempObjectPath "repo" "abcd")) = false ∧
    (UploadHandler toyHash "repo" entryOne
        (fsWrite fsEmpty (GetTempObjectPath "repo" "abcd") [9])
        [.file "abcd" [1, 2, 3]]).2 = .ok () ∧
    (UploadHandler toyHash "repo" entryOne
        (fsWrite fsEmpty (GetTempObjectPath "repo" "abcd") [9])
        [.file "abcd" [1, 2, 3]]).1 (GetTempObjectPath "repo" "abcd") =
      some [1, 2, 3] := by
  refine ⟨?_, ?_, ?_⟩ <;> decide

/-- C1: evaluation of the publish transaction at the failing input.
The upload of `abcd` declares checksum `00` while the bytes hash
differently; the request fails 422 but leaves the staged file, and the
subsequent `GET /done/{id}` succeeds with 200, publishing at the live
path bytes whose digest does not equal the declared checksum — against
the claim that success of done implies a bit-correct closure. -/
theorem doneSucceedsOnCorruptObject :
    toyHash [1, 2, 3] ≠ "00" ∧
    (UploadHandler toyHash "repo" entryOne fsEmpty
        [.file "abcd" [1, 2, 3], .checksum "abcd:00"]).2 =
      .httpError 422 "bad checksum for abcd" ∧
    (DoneHandler "repo"
        ⟨(UploadHandler toyHash "repo" entryOne fsEmpty
            [.file "abcd" [1, 2, 3], .checksum "abcd:00"]).1, [], [entryOne]⟩
        entryOne).2.2 = .ok () ∧
    (DoneHandler "repo"
        ⟨(UploadHandler toyHash "repo" entryOne fsEmpty
            [.file "abcd" [1, 2, 3], .checksum "abcd:00"]).1, [], [entryOne]⟩
        entryOne).1.fs "repo/objects/ab/cd" = some [1, 2, 3] := by
  refine ⟨?_, ?_, ?_, ?_⟩ <;> decide

/-- C8, counterexample: promoting the staged object `abcd` runs
`moveFile`, whose primitive call sequence opens, copies and then
removes the source — it contains a byte copy and a source removal and
no rename, against the claim of a single atomic rename. -/
theorem moveFileNotRename_cex :
    (moveFile stagedStateOne.fs (GetTempObjectPath "repo" "abcd")
        "repo/objects/ab/cd").2.1 =
      [.openRead (GetTempObjectPath "repo" "abcd"), .statFd,
       .openWriteTrunc "repo/objects/ab/cd",
       .copyBytes (GetTempObjectPath "repo" "abcd") "repo/objects/ab/cd",
       .closeFd, .closeFd, .removeFile (GetTempObjectPath "repo" "abcd")] ∧
    FileOp.copyBytes (GetTempObjectPath "repo" "abcd") "repo/objects/ab/cd" ∈
      (moveFile stagedStateOne.fs (GetTempObjectPath "repo" "abcd")
        "repo/objects/ab/cd").2.1 ∧
    FileOp.removeFile (GetTempObjectPath "repo" "abcd") ∈
      (moveFile stagedStateOne.fs (GetTempObjectPath "repo" "abcd")
        "repo/objects/ab/cd").2.1 ∧
    FileOp.renameFile (GetTempObjectPath "repo" "abcd") "repo/objects/ab/cd" ∉
      (moveFile stagedStateOne.fs (GetTempObjectPath "repo" "abcd")
        "repo/objects/ab/cd").2.1 := by
  refine ⟨?_, ?_, ?_, ?_⟩ <;> decide

/-- The missing-objects loop is the in-order filter of the names whose
staging and live files are both absent (given names long enough not to
panic). -/
theorem missingLoop_eq_filter (repoPath : String) (fs : FS) :
    ∀ ns : List String, (∀ n ∈ ns, 2 ≤ n.length) →
      missingLoop repoPath fs ns = .ok (ns.filter (fun n =>
        !fsExists fs (GetTempObjectPath repoPath n) &&
        !fsExists fs (filepathJoin [repoPath, "objects", n.take 2, n.drop 2]))) := by
  intro ns
  induction ns with
  | nil => intro _; simp [missingLoop]
  | cons n rest ih =>
    intro h
    have hn : ¬ n.length < 2 := by
      have := h n (by simp)
      omega
    rw [missingLoop, ih (fun m hm => h m (by simp [hm]))]
    simp only [GetObjectPath, hn, if_false, List.filter_cons]

/-- C5 (amended): for an entry whose object names are at least two
characters long, `GET /queue/{id}` replies with exactly those names of
the entry object list, in input order with duplicates preserved (no
deduplication is performed), for which neither the staging file nor the
live object file exists; the handler reads the filesystem and mutates
nothing, so repeated calls with unchanged filesystem state return the
same list. -/
theorem objectsHandler_inOrder_filter (fs : FS) (repoPath : String) (entry : QueueEntry)
    (h : ∀ n ∈ entry.objects, 2 ≤ n.length) :
    ObjectsHandler fs repoPath entry = .ok (entry.objects.filter (fun n =>
      !fsExists fs (GetTempObjectPath repoPath n) &&
      !fsExists fs (filepathJoin [repoPath, "objects", n.take 2, n.drop 2]))) := by
  unfold ObjectsHandler
  exact missingLoop_eq_filter repoPath fs entry.objects h

/-- C5 witness: the characterization evaluated on the duplicate-name
entry over the empty filesystem. -/
theorem objectsHandler_inOrder_filter_witness :
    ObjectsHandler fsEmpty "repo" entryDup = .ok (entryDup.objects.filter (fun n =>
      !fsExists fsEmpty (GetTempObjectPath "repo" n) &&
      !fsExists fsEmpty (filepathJoin ["repo", "objects", n.take 2, n.drop 2]))) :=
  objectsHandler_inOrder_filter fsEmpty "repo" entryDup (by decide)

/-- C8 (amended): during finalize, a staged object whose target live
path does not yet exist is promoted by copying the staging bytes to the
target and then deleting the staging file (the `moveFile` call
sequence contains a byte copy and a source removal and never a rename);
afterwards the staging file is absent and the target holds the
identical bytes.  When the target already exists the handler skips the
object (treating it as already published, irrespective of the staging
source), and when both staging file and target are absent finalize
fails with HTTP 500 before any ref is updated. -/
theorem donePromotionCopiesThenDeletes (repoPath : String) (st : ServerState)
    (n target : String) (entry : QueueEntry)
    (hobj : entry.objects = [n]) (hfin : entry.finalizing = false)
    (htgt : GetObjectPath repoPath n = some target) :
    (∀ b : Bytes, st.fs (GetTempObjectPath repoPath n) = some b →
      st.fs target = none →
      (moveFile st.fs (GetTempObjectPath repoPath n) target).2.1 =
        [.openRead (GetTempObjectPath repoPath n), .statFd, .openWriteTrunc target,
         .copyBytes (GetTempObjectPath repoPath n) target, .closeFd, .closeFd,
         .removeFile (GetTempObjectPath repoPath n)] ∧
      FileOp.renameFile (GetTempObjectPath repoPath n) target ∉
        (moveFile st.fs (GetTempObjectPath repoPath n) target).2.1 ∧
      (DoneHandler repoPath st entry).2.2 = .ok () ∧
      (DoneHandler repoPath st entry).1.fs target = some b ∧
      (DoneHandler repoPath st entry).1.fs (GetTempObjectPath repoPath n) = none) ∧
    (st.fs target ≠ none →
      (DoneHandler repoPath st entry).2.2 = .ok () ∧
      (DoneHandler repoPath st entry).1.fs = st.fs) ∧
    (st.fs (GetTempObjectPath repoPath n) = none → st.fs target = none →
      (∃ msg, (DoneHandler repoPath st entry).2.2 = .httpError 500 msg) ∧
      (DoneHandler repoPath st entry).1.refs = st.refs) := by
  have hne : GetTempObjectPath repoPath n ≠ target :=
    temp_ne_livePath repoPath n n target htgt
  refine ⟨?_, ?_, ?_⟩
  · intro b hstg htgt0
    have hnotex : fsExists st.fs target = false := by
      simp [fsExists, htgt0]
    constructor
    · simp [moveFile, hstg]
    constructor
    · simp [moveFile, hstg]
    have hdone : DoneHandler repoPath st entry =
        ({ fs := fsRemove (fsWrite st.fs target b) (GetTempObjectPath repoPath n),
           refs := UpdateRefs st.refs entry.updateRefs,
           queue := removeEntryFn (setFinalizing st.queue entry.id) entry.id },
         [.move (GetTempObjectPath repoPath n) target] ++
           entry.updateRefs.map (fun p => Evt.setRef p.1 p.2.client) ++
           [.removeEntry entry.id], .ok ()) := by
      simp [DoneHandler, hfin, hobj, promoteLoop, htgt, hnotex, moveFile, hstg]
    refine ⟨by rw [hdone], ?_, ?_⟩
    · rw [hdone]
      simp [fsRemove, fsWrite, hne.symm]
    · rw [hdone]
      simp [fsRemove]
  · intro htgt1
    have hex : fsExists st.fs target = true := by
      simp [fsExists, Option.isSome_iff_ne_none, htgt1]
    have hdone : DoneHandler repoPath st entry =
        ({ fs := st.fs, refs := UpdateRefs st.refs entry.updateRefs,
           queue := removeEntryFn (setFinalizing st.queue entry.id) entry.id },
         entry.updateRefs.map (fun p => Evt.setRef p.1 p.2.client) ++
           [.removeEntry entry.id], .ok ()) := by
      simp [DoneHandler, hfin, hobj, promoteLoop, htgt, hex]
    exact ⟨by rw [hdone], by rw [hdone]⟩
  · intro hstg0 htgt0
    have hnotex : fsExists st.fs target = false := by
      simp [fsExists, htgt0]
    have hdone : (DoneHandler repoPath st entry).2.2 =
        .httpError 500 ("unable to move \x22" ++ GetTempObjectPath repoPath n ++
          "\x22 to \x22" ++ target ++ "\x22") ∧
        (DoneHandler repoPath st entry).1.refs = st.refs := by
      simp [DoneHandler, hfin, hobj, promoteLoop, htgt, hnotex, moveFile, hstg0]
    exact ⟨⟨_, hdone.1⟩, hdone.2⟩

/-- C8 witness: the amended statement evaluated on the staged scenario
state. -/
theorem donePromotionCopiesThenDeletes_witness :
    (∀ b : Bytes, stagedStateOne.fs (GetTempObjectPath "repo" "abcd") = some b →
      stagedStateOne.fs "repo/objects/ab/cd" = none →
      (moveFile stagedStateOne.fs (GetTempObjectPath "repo" "abcd")
        "repo/objects/ab/cd").2.1 =
        [.openRead (GetTempObjectPath "repo" "abcd"), .statFd,
         .openWriteTrunc "repo/objects/ab/cd",
         .copyBytes (GetTempObjectPath "repo" "abcd") "repo/objects/ab/cd",
         .closeFd, .closeFd, .removeFile (GetTempObjectPath "repo" "abcd")] ∧
      FileOp.renameFile (GetTempObjectPath "repo" "abcd") "repo/objects/ab/cd" ∉
        (moveFile stagedStateOne.fs (GetTempObjectPath "repo" "abcd")
          "repo/objects/ab/cd").2.1 ∧
      (DoneHandler "repo" stagedStateOne entryOne).2.2 = .ok () ∧
      (DoneHandler "repo" stagedStateOne entryOne).1.fs "repo/objects/ab/cd" = some b ∧
      (DoneHandler "repo" stagedStateOne entryOne).1.fs
        (GetTempObjectPath "repo" "abcd") = none) ∧
    (stagedStateOne.fs "repo/objects/ab/cd" ≠ none →
      (DoneHandler "repo" stagedStateOne entryOne).2.2 = .ok () ∧
      (DoneHandler "repo" stagedStateOne entryOne).1.fs = stagedStateOne.fs) ∧
    (stagedStateOne.fs (GetTempObjectPath "repo" "abcd") = none →
      stagedStateOne.fs "repo/objects/ab/cd" = none →
      (∃ msg, (DoneHandler "repo" stagedStateOne entryOne).2.2 =
        .httpError 500 msg) ∧
      (DoneHandler "repo" stagedStateOne entryOne).1.refs = stagedStateOne.refs) :=
  donePromotionCopiesThenDeletes "repo" stagedStateOne "abcd" "repo/objects/ab/cd"
    entryOne (by decide) (by decide) (by decide)

/-- Every event the promotion loop emits is an object move. -/
theorem promoteLoop_evts_isMove (repoPath : String) :
    ∀ (ns : List String) (fs : FS),
      ∀ e ∈ (promoteLoop repoPath fs ns).2.1, e.isMove = true := by
  intro ns
  induction ns with
  | nil => intro fs e he; simp [promoteLoop] at he
  | cons n rest ih =>
    intro fs e he
    rw [promoteLoop] at he
    cases hgo : GetObjectPath repoPath n with
    | none => simp only [hgo] at he; simp at he
    | some objectPath =>
      simp only [hgo] at he
      by_cases hex : fsExists fs objectPath
      · rw [if_pos hex] at he
        exact ih fs e he
      · rw [if_neg hex] at he
        cases hstg : fs (GetTempObjectPath repoPath n) with
        | none => simp [moveFile, hstg] at he
        | some b =>
          simp only [moveFile, hstg] at he
          rcases List.mem_cons.mp he with h1 | h2
          · simp [h1, Evt.isMove]
          · exact ih _ e h2

/-- The promotion loop never deletes a live object path: the only path
it removes is a staging path. -/
theorem promoteLoop_preserves (repoPath : String) :
    ∀ (ns : List String) (fs : FS) (m p : String),
      GetObjectPath repoPath m = some p → fsExists fs p = true →
      fsExists (promoteLoop repoPath fs ns).1 p = true := by
  intro ns
  induction ns with
  | nil => intro fs m p _ hp; simpa [promoteLoop] using hp
  | cons n rest ih =>
    intro fs m p hm hp
    rw [promoteLoop]
    cases hgo : GetObjectPath repoPath n with
    | none => simp only [hgo]; simpa using hp
    | some objectPath =>
      simp only [hgo]
      by_cases hex : fsExists fs objectPath
      · rw [if_pos hex]
        exact ih fs m p hm hp
      · rw [if_neg hex]
        cases hstg : fs (GetTempObjectPath repoPath n) with
        | none => simpa [moveFile, hstg] using hp
        | some b =>
          simp only [moveFile, hstg]
          refine ih _ m p hm ?_
          have hnp : p ≠ GetTempObjectPath repoPath n :=
            (temp_ne_livePath repoPath n m p hm).symm
          simp [fsExists, fsRemove, fsWrite, hnp]
          by_cases hpt : p = objectPath
          · simp [hpt]
          · simpa [hpt, fsExists] using hp

/-- When the promotion loop finishes without error, every processed
object exists at its live path in the resulting filesystem. -/
theorem promoteLoop_ok_live (repoPath : String) :
    ∀ (ns : List String) (fs : FS),
      (promoteLoop repoPath fs ns).2.2 = none →
      ∀ n ∈ ns, ∃ p, GetObjectPath repoPath n = some p ∧
        fsExists (promoteLoop repoPath fs ns).1 p = true := by
  intro ns
  induction ns with
  | nil => intro fs _ n hn; simp at hn
  | cons n rest ih =>
    intro fs hok m hm
    rw [promoteLoop] at hok ⊢
    cases hgo : GetObjectPath repoPath n with
    | none => simp only [hgo] at hok; simp at hok
    | some objectPath =>
      simp only [hgo] at hok ⊢
      by_cases hex : fsExists fs objectPath
      · rw [if_pos hex] at hok ⊢
        rcases List.mem_cons.mp hm with h1 | h2
        · subst h1
          exact ⟨objectPath, hgo, promoteLoop_preserves repoPath rest fs m
            objectPath hgo hex⟩
        · exact ih fs hok m h2
      · rw [if_neg hex] at hok ⊢
        cases hstg : fs (GetTempObjectPath repoPath n) with
        | none => simp [moveFile, hstg] at hok
        | some b =>
          simp only [moveFile, hstg] at hok ⊢
          have hlive : fsExists (fsRemove (fsWrite fs objectPath b)
              (GetTempObjectPath repoPath n)) objectPath = true := by
            have hnp : objectPath ≠ GetTempObjectPath repoPath n :=
              (temp_ne_livePath repoPath n n objectPath hgo).symm
            simp [fsExists, fsRemove, fsWrite, hnp]
          rcases List.mem_cons.mp hm with h1 | h2
          · subst h1
            exact ⟨objectPath, hgo, promoteLoop_preserves repoPath rest _ m
              objectPath hgo hlive⟩
          · exact ih _ hok m h2

/-- The error slot of the promotion loop never carries a 200 reply. -/
theorem promoteLoop_err_ne_ok (repoPath : String) :
    ∀ (ns : List String) (fs : FS),
      (promoteLoop repoPath fs ns).2.2 ≠ some (.ok ()) := by
  intro ns
  induction ns with
  | nil => intro fs; simp [promoteLoop]
  | cons n rest ih =>
    intro fs
    rw [promoteLoop]
    cases hgo : GetObjectPath repoPath n with
    | none => simp [hgo]
    | some objectPath =>
      simp only [hgo]
      by_cases hex : fsExists fs objectPath
      · rw [if_pos hex]
        exact ih fs
      · rw [if_neg hex]
        cases hstg : fs (GetTempObjectPath repoPath n) with
        | none => simp [moveFile, hstg]
        | some b =>
          simp only [moveFile, hstg]
          exact ih _

/-- C3: in every finalize, the event trace of `DoneHandler` places all
object moves before every `set_ref`, and the entry removal last; when
the handler replies 200, every object of the entry exists at its live
path in the final filesystem and the refs have been advanced, and when
it fails, no `set_ref` event was emitted and the ref map is unchanged —
refs are never advanced over a partially promoted closure. -/
theorem doneHandler_refsAfterPromotion (repoPath : String) (st : ServerState)
    (entry : QueueEntry) :
    ∃ moves : List Evt, (∀ e ∈ moves, e.isMove = true) ∧
      ((DoneHandler repoPath st entry).2.2 = .ok () →
        (DoneHandler repoPath st entry).2.1 =
          moves ++ entry.updateRefs.map (fun p => Evt.setRef p.1 p.2.client) ++
            [.removeEntry entry.id] ∧
        (∀ n ∈ entry.objects, ∃ p, GetObjectPath repoPath n = some p ∧
          fsExists (DoneHandler repoPath st entry).1.fs p = true) ∧
        (DoneHandler repoPath st entry).1.refs = UpdateRefs st.refs entry.updateRefs ∧
        (DoneHandler repoPath st entry).1.queue =
          removeEntryFn (setFinalizing st.queue entry.id) entry.id) ∧
      ((DoneHandler repoPath st entry).2.2 ≠ .ok () →
        (DoneHandler repoPath st entry).2.1 = moves ∧
        (DoneHandler repoPath st entry).1.refs = st.refs) := by
  by_cases hf : entry.finalizing
  · refine ⟨[], by simp, ?_, ?_⟩
    · intro hok
      simp [DoneHandler, hf] at hok
    · intro _
      simp [DoneHandler, hf]
  · rcases hpl : promoteLoop repoPath st.fs entry.objects with ⟨fs1, evts, err⟩
    have hmoves : ∀ e ∈ evts, e.isMove = true := by
      intro e he
      have := promoteLoop_evts_isMove repoPath entry.objects st.fs e
      rw [hpl] at this
      exact this he
    cases err with
    | some e =>
      refine ⟨evts, hmoves, ?_, ?_⟩
      · intro hok
        have hne := promoteLoop_err_ne_ok repoPath entry.objects st.fs
        rw [hpl] at hne
        simp [DoneHandler, hf, hpl] at hok
        exact absurd (congrArg some hok) hne
      · intro _
        simp [DoneHandler, hf, hpl]
    | none =>
      refine ⟨evts, hmoves, ?_, ?_⟩
      · intro _
        have hlive := promoteLoop_ok_live repoPath entry.objects st.fs
        rw [hpl] at hlive
        simp only [DoneHandler, hf, hpl]
        refine ⟨by simp, ?_, by simp, by simp⟩
        intro n hn
        simpa using hlive rfl n hn
      · intro hok
        simp [DoneHandler, hf, hpl] at hok

/-- C3 witness: the ordering statement evaluated on the staged
scenario. -/
theorem doneHandler_refsAfterPromotion_witness :
    ∃ moves : List Evt, (∀ e ∈ moves, e.isMove = true) ∧
      ((DoneHandler "repo" stagedStateOne entryOne).2.2 = .ok () →
        (DoneHandler "repo" stagedStateOne entryOne).2.1 =
          moves ++ entryOne.updateRefs.map (fun p => Evt.setRef p.1 p.2.client) ++
            [.removeEntry entryOne.id] ∧
        (∀ n ∈ entryOne.objects, ∃ p, GetObjectPath "repo" n = some p ∧
          fsExists (DoneHandler "repo" stagedStateOne entryOne).1.fs p = true) ∧
        (DoneHandler "repo" stagedStateOne entryOne).1.refs =
          UpdateRefs stagedStateOne.refs entryOne.updateRefs ∧
        (DoneHandler "repo" stagedStateOne entryOne).1.queue =
          removeEntryFn (setFinalizing stagedStateOne.queue entryOne.id)
            entryOne.id) ∧
      ((DoneHandler "repo" stagedStateOne entryOne).2.2 ≠ .ok () →
        (DoneHandler "repo" stagedStateOne entryOne).2.1 = moves ∧
        (DoneHandler "repo" stagedStateOne entryOne).1.refs =
          stagedStateOne.refs) :=
  doneHandler_refsAfterPromotion "repo" stagedStateOne entryOne

/-- The Go map membership test of the conflict scan agrees with key
membership. -/
theorem any_key_iff (refs : List (String × RevisionPair)) (b : String) :
    refs.any (fun q => q.1 == b) = true ↔ b ∈ refKeys refs := by
  simp only [refKeys, List.any_eq_true, List.mem_map, beq_iff_eq]

/-- A clean conflict scan means no existing entry shares a branch with
the request. -/
theorem findConflict_none_iff (queue : List QueueEntry) (req : QueueRequest) :
    findConflict queue req = none ↔
      ∀ e ∈ queue, ∀ b ∈ refKeys e.updateRefs, b ∉ refKeys req.refs := by
  unfold findConflict
  rw [List.findSome?_eq_none_iff]
  constructor
  · intro h e he b hb hbr
    have h1 := h e he
    rw [List.findSome?_eq_none_iff] at h1
    rcases List.mem_map.mp hb with ⟨p, hp, hpb⟩
    have h2 := h1 p hp
    rw [((any_key_iff req.refs p.1).mpr (hpb ▸ hbr) : _)] at h2
    simp at h2
  · intro h e he
    rw [List.findSome?_eq_none_iff]
    intro p hp
    by_cases hc : req.refs.any (fun q => q.1 == p.1) = true
    · exact absurd ((any_key_iff req.refs p.1).mp hc)
        (h e he p.1 (List.mem_map.mpr ⟨p, hp, rfl⟩))
    · simp [hc]

/-- A conflict scan hit names a branch shared between an existing entry
and the request. -/
theorem findConflict_some (queue : List QueueEntry) (req : QueueRequest) (b : String)
    (h : findConflict queue req = some b) :
    (∃ e ∈ queue, b ∈ refKeys e.updateRefs) ∧ b ∈ refKeys req.refs := by
  unfold findConflict at h
  rcases List.exists_of_findSome?_eq_some h with ⟨e, he, h1⟩
  rcases List.exists_of_findSome?_eq_some h1 with ⟨p, hp, h2⟩
  by_cases hc : req.refs.any (fun q => q.1 == p.1) = true
  · rw [if_pos hc] at h2
    have hpb : p.1 = b := Option.some.inj h2
    exact ⟨⟨e, he, List.mem_map.mpr ⟨p, hp, hpb⟩⟩,
      hpb ▸ (any_key_iff req.refs p.1).mp hc⟩
  · rw [if_neg hc] at h2
    exact absurd h2 (by simp)

/-- One queue mutation preserves pairwise branch disjointness. -/
theorem applyOp_preserves (q : List QueueEntry) (op : QueueOp)
    (h : DisjointRefs q) : DisjointRefs (applyOp q op) := by
  cases op with
  | remove id =>
    exact List.Pairwise.sublist (List.filter_sublist q) h
  | create newId req =>
    show DisjointRefs (CreateEntryHandler q newId req).1
    unfold CreateEntryHandler
    cases hfc : findConflict q req with
    | some b => exact h
    | none =>
      simp only
      unfold DisjointRefs
      rw [List.pairwise_append]
      refine ⟨h, by simp, ?_⟩
      intro e1 he1 e2 he2 b hb
      have he2q : e2 = QueueEntry.mk newId req.refs req.objects false := by
        simpa using he2
      rw [he2q]
      exact (findConflict_none_iff q req).mp hfc e1 he1 b hb

/-- Every queue reachable from the empty queue by create and remove
operations has pairwise disjoint branch sets. -/
theorem runOps_disjoint (ops : List QueueOp) : DisjointRefs (runOps ops) := by
  suffices h : ∀ q, DisjointRefs q → DisjointRefs (ops.foldl applyOp q) from
    h [] (by simp [DisjointRefs])
  induction ops with
  | nil => intro q h; exact h
  | cons op rest ih =>
    intro q h
    exact ih (applyOp q op) (applyOp_preserves q op h)

/-- C4: `POST /queue` refuses, with HTTP 500 and the message
`branch "<name>" is already being updated` for a shared branch, every
request whose refs map shares a branch with the `update_refs` of an
existing entry, leaving the queue unchanged; consequently every queue
reachable from the empty queue by create and remove operations has
pairwise disjoint `update_refs` key sets — at most one active publish
per branch. -/
theorem createEntry_branchExclusive :
    (∀ (queue : List QueueEntry) (newId : String) (req : QueueRequest),
      (∃ e ∈ queue, ∃ b, b ∈ refKeys e.updateRefs ∧ b ∈ refKeys req.refs) →
      ∃ b, b ∈ refKeys req.refs ∧ (∃ e ∈ queue, b ∈ refKeys e.updateRefs) ∧
        CreateEntryHandler queue newId req =
          (queue, .httpError 500 ("branch \x22" ++ b ++ "\x22 is already being updated"))) ∧
    (∀ ops : List QueueOp, DisjointRefs (runOps ops)) := by
  constructor
  · intro queue newId req hshare
    cases hfc : findConflict queue req with
    | some b =>
      rcases findConflict_some queue req b hfc with ⟨hin, hreq⟩
      refine ⟨b, hreq, hin, ?_⟩
      unfold CreateEntryHandler
      rw [hfc]
    | none =>
      rcases hshare with ⟨e, he, b, hbe, hbr⟩
      exact absurd hbr ((findConflict_none_iff queue req).mp hfc e he b hbe)
  · exact runOps_disjoint

/-- C4 witness: the refusal applied with `entryOne` active and a
request re-targeting `stable`, and the invariant on a concrete
operation sequence. -/
theorem createEntry_branchExclusive_witness :
    (∃ b, b ∈ refKeys reqStable.refs ∧ (∃ e ∈ [entryOne], b ∈ refKeys e.updateRefs) ∧
      CreateEntryHandler [entryOne] "q9" reqStable =
        ([entryOne],
         .httpError 500 ("branch \x22" ++ b ++ "\x22 is already being updated"))) ∧
    DisjointRefs (runOps [.create "q1" reqStable, .create "q2" reqStable,
      .remove "q1"]) :=
  ⟨createEntry_branchExclusive.1 [entryOne] "q9" reqStable
      ⟨entryOne, by decide, "stable", by decide, by decide⟩,
   createEntry_branchExclusive.2 [.create "q1" reqStable, .create "q2" reqStable,
      .remove "q1"]⟩

/-- The commit walk, run with enough fuel, returns the accumulated
commits followed by the hypothesised chain when the chain reaches the
remote revision. -/
theorem walkAux_reaches (parentOf : String → Option String) (remoteRev : String) :
    ∀ (chain : List String) (parent : String) (acc : List String) (fuel : Nat),
      isWalkToB parentOf parent chain remoteRev = true → chain.length < fuel →
      findNeededCommitsAux parentOf remoteRev fuel parent acc = .ok (acc ++ chain) := by
  intro chain
  induction chain with
  | nil =>
    intro parent acc fuel hw hfuel
    cases fuel with
    | zero => simp at hfuel
    | succ f =>
      have hp : parent = remoteRev := by simpa [isWalkToB] using hw
      simp [findNeededCommitsAux, hp]
  | cons c cs ih =>
    intro parent acc fuel hw hfuel
    cases fuel with
    | zero => simp at hfuel
    | succ f =>
      rw [isWalkToB] at hw
      cases hpc : parentOf c with
      | none => rw [hpc] at hw; simp at hw
      | some np =>
        rw [hpc] at hw
        simp only [Bool.and_eq_true, beq_iff_eq, Bool.not_eq_true',
          beq_eq_false_iff_ne] at hw
        obtain ⟨⟨hcp, hcr⟩, hrec⟩ := hw
        subst hcp
        rw [findNeededCommitsAux, if_neg hcr]
        simp only [hpc]
        have hlen : cs.length < f := by
          simp only [List.length_cons] at hfuel
          omega
        rw [ih np (acc ++ [c]) f hrec hlen]
        simp

/-- The commit walk, run with enough fuel along a chain that ends at a
parentless commit without meeting a non-empty remote revision, fails
as non-descendant. -/
theorem walkAux_deadEnd (parentOf : String → Option String) (remoteRev : String)
    (hremote : remoteRev ≠ "") :
    ∀ (chain : List String) (parent : String) (acc : List String) (fuel : Nat),
      isDeadEndWalkB parentOf parent chain remoteRev = true → chain.length < fuel →
      findNeededCommitsAux parentOf remoteRev fuel parent acc = .nonDescendant := by
  intro chain
  induction chain with
  | nil => intro parent acc fuel hw _; simp [isDeadEndWalkB] at hw
  | cons c cs ih =>
    intro parent acc fuel hw hfuel
    cases fuel with
    | zero => simp at hfuel
    | succ f =>
      rw [isDeadEndWalkB] at hw
      cases hpc : parentOf c with
      | none =>
        rw [hpc] at hw
        simp only [Bool.and_eq_true, beq_iff_eq, Bool.not_eq_true',
          beq_eq_false_iff_ne, List.isEmpty_iff] at hw
        obtain ⟨⟨hcp, hcr⟩, _⟩ := hw
        subst hcp
        rw [findNeededCommitsAux, if_neg hcr]
        simp only [hpc]
        rw [if_pos hremote]
      | some np =>
        rw [hpc] at hw
        simp only [Bool.and_eq_true, beq_iff_eq, Bool.not_eq_true',
          beq_eq_false_iff_ne] at hw
        obtain ⟨⟨hcp, hcr⟩, _, hrec⟩ := hw
        subst hcp
        rw [findNeededCommitsAux, if_neg hcr]
        simp only [hpc]
        have hlen : cs.length < f := by
          simp only [List.length_cons] at hfuel
          omega
        exact ih np (acc ++ [c]) f hrec hlen

/-- A dead-end walk starts at a commit different from the remote
revision. -/
theorem deadEnd_ne (parentOf : String → Option String) (l r : String)
    (ch : List String) (h : isDeadEndWalkB parentOf l ch r = true) : l ≠ r := by
  cases ch with
  | nil => simp [isDeadEndWalkB] at h
  | cons c cs =>
    rw [isDeadEndWalkB, Bool.and_eq_true, Bool.and_eq_true] at h
    have hcl := h.1.1
    have hcr := h.1.2
    rw [beq_iff_eq] at hcl
    rw [Bool.not_eq_true', beq_eq_false_iff_ne] at hcr
    intro hlr
    exact hcr (hcl.trans hlr)

/-- C9: for a branch whose server revision is non-empty, when the
parent walk from the local revision dead-ends without meeting the
server revision, `FindNeededCommits` fails as non-descendant and
`StartClient` returns the error having issued only the `info` request
— no queue-create and no upload; when the walk does reach the server
revision, the collected commit list is exactly the chain from the
local revision down to, and excluding, the server revision. -/
theorem findNeededCommits_walk (parentOf : String → Option String) (fuel : Nat)
    (remoteRev localRev : String) (chain : List String) :
    (isWalkToB parentOf localRev chain remoteRev = true → chain.length < fuel →
      FindNeededCommits parentOf fuel remoteRev localRev = .ok chain) ∧
    (isDeadEndWalkB parentOf localRev chain remoteRev = true → remoteRev ≠ "" →
      chain.length < fuel →
      FindNeededCommits parentOf fuel remoteRev localRev = .nonDescendant ∧
      ∀ (traverse : String → List String) (localFs : FS) (hash : Bytes → String)
        (repoPath branch : String),
        StartClient parentOf fuel traverse localFs hash repoPath
            [(branch, localRev)] [(branch, remoteRev)] =
          ([HttpCall.info], .error "remote commit not descendent of commit") ∧
        HttpCall.createQueue ∉ (StartClient parentOf fuel traverse localFs hash
            repoPath [(branch, localRev)] [(branch, remoteRev)]).1 ∧
        HttpCall.upload ∉ (StartClient parentOf fuel traverse localFs hash
            repoPath [(branch, localRev)] [(branch, remoteRev)]).1) := by
  constructor
  · intro hw hfuel
    have := walkAux_reaches parentOf remoteRev chain localRev [] fuel hw hfuel
    simpa [FindNeededCommits] using this
  · intro hd hrem hfuel
    have hnd : FindNeededCommits parentOf fuel remoteRev localRev = .nonDescendant :=
      walkAux_deadEnd parentOf remoteRev hrem chain localRev [] fuel hd hfuel
    refine ⟨hnd, ?_⟩
    intro traverse localFs hash repoPath branch
    have hlr : localRev ≠ remoteRev := deadEnd_ne parentOf localRev remoteRev chain hd
    have hcu : CheckUpdate [(branch, localRev)] [(branch, remoteRev)] =
        [(branch, ⟨remoteRev, localRev⟩)] := by
      simp [CheckUpdate, lookupD, hlr]
    have hcl : StartClient parentOf fuel traverse localFs hash repoPath
        [(branch, localRev)] [(branch, remoteRev)] =
        ([HttpCall.info], .error "remote commit not descendent of commit") := by
      unfold StartClient
      rw [hcu]
      simp only [List.isEmpty_cons, Bool.false_eq_true, if_false]
      unfold FindObjectsToPush
      rw [collectCommits]
      simp only [hnd]
    refine ⟨hcl, ?_, ?_⟩ <;> rw [hcl] <;> simp

/-- C9 witness: the walk statement evaluated on the three-commit
history `c3 → c2 → c1`, pushing `c3` against server revision `c1`
(reached: commits `[c3, c2]`) and against the unknown revision `c9`
(dead end: non-descendant, only the `info` request issued). -/
theorem findNeededCommits_walk_witness :
    FindNeededCommits parentChain3 10 "c1" "c3" = .ok ["c3", "c2"] ∧
    FindNeededCommits parentChain3 10 "c9" "c3" = .nonDescendant ∧
    StartClient parentChain3 10 (fun _ => []) fsEmpty toyHash "repo"
        [("stable", "c3")] [("stable", "c9")] =
      ([HttpCall.info], .error "remote commit not descendent of commit") :=
  ⟨(findNeededCommits_walk parentChain3 10 "c1" "c3" ["c3", "c2"]).1
      (by decide) (by decide),
   ((findNeededCommits_walk parentChain3 10 "c9" "c3" ["c3", "c2", "c1"]).2
      (by decide) (by decide) (by decide)).1,
   (((findNeededCommits_walk parentChain3 10 "c9" "c3" ["c3", "c2", "c1"]).2
      (by decide) (by decide) (by decide)).2 (fun _ => []) fsEmpty toyHash
      "repo" "stable").1⟩

end OstreeUpload
